import Mathlib

/-!
Verification of the core logic of the nvc-ragbot repository: the practice-mode
intent detector, the scenario filter, and the progress ledger
(lib/practice-mode.ts and lib/progress-tracking.ts).

Modelling conventions:
* TypeScript string literal unions become Lean inductives; optional fields
  become `Option`.
* Calendar dates (YYYY-MM-DD strings in the code) are modelled as abstract day
  numbers (`Nat`): `getToday` becomes an explicit `today : Nat` parameter and
  the calendar day before `today` is the day `d` with `d + 1 = today`.
* JavaScript numbers are modelled exactly: integer quantities as `Nat`, the
  statistics that involve division as `ℚ`, with `Math.round x = ⌊x + 1/2⌋`.
* `Date.now()` / `generateId()` results are explicit parameters of
  `recordAttempt` (the code derives them from the environment).
* `localStorage` is a single optional string slot carried next to the
  in-memory record; `saveData` overwrites it with the serialized record.
* `JSON.stringify` / `JSON.parse` are modelled by an executable compact JSON
  codec over a `Json` value type, with a proved parse-of-stringify round trip.
  `importData` assigns the parsed JSON value to the data slot without any
  shape validation, exactly as the code does, so the import/export operations
  act on `Json` values.
-/

/-! ### Practice-mode data model (lib/practice-mode.ts) -/

inductive NVCComponent where
  | observations
  | feelings
  | needs
  | requests
deriving DecidableEq, Repr

inductive Difficulty where
  | beginner
  | intermediate
  | advanced
deriving DecidableEq, Repr

inductive ConversationMode where
  | single
  | multi
deriving DecidableEq, Repr

inductive PracticeModeType where
  | practice
  | translate
deriving DecidableEq, Repr

/-- Result of `detectPracticeMode`; TS optional fields become `Option`. -/
structure PracticeMode where
  isPracticeMode : Bool
  mode : Option PracticeModeType
  focusComponent : Option NVCComponent
  difficulty : Option Difficulty
  conversationMode : Option ConversationMode
deriving DecidableEq, Repr

/-- Scenario records carry at least these fields (extra keys are irrelevant
to `filterScenarios`, which only reads these three and returns records
unchanged). -/
structure Scenario where
  title : String
  difficulty : String
  focus_component : String
  mode : String
deriving DecidableEq, Repr

structure ScenarioFilter where
  difficulty : Option String
  focusComponent : Option String
  conversationMode : Option String
deriving DecidableEq, Repr

/-! ### Character/string helpers (String.prototype.toLowerCase / includes,
and the word-boundary regexes of `detectPracticeMode`) -/

/-- `message.toLowerCase()` on the character list. -/
def lowerChars (s : List Char) : List Char := s.map Char.toLower

/-- Does `hay` start with `needle`? (helper for `includes`). -/
def startsWithSub : List Char → List Char → Bool
  | [], _ => true
  | _ :: _, [] => false
  | n :: ns, h :: hs => n == h && startsWithSub ns hs

/-- `hay.includes(needle)`: substring containment. -/
def containsSub (hay needle : List Char) : Bool :=
  if startsWithSub needle hay then true
  else
    match hay with
    | [] => false
    | _ :: t => containsSub t needle

/-- JS regex word character `\w` = `[A-Za-z0-9_]`. -/
def isWordChar (c : Char) : Bool := c.isAlphanum || c == '_'

/-- A `\b` holds on the left of a position whose preceding char is `prev`. -/
def leftOk : Option Char → Bool
  | none => true
  | some c => !isWordChar c

/-- A `\b` holds before the remaining input `s`. -/
def rightOk : List Char → Bool
  | [] => true
  | c :: _ => !isWordChar c

/-- Strip `word` from the front of `s`, if present. -/
def dropStart : List Char → List Char → Option (List Char)
  | [], s => some s
  | _ :: _, [] => none
  | w :: ws, c :: cs => if c == w then dropStart ws cs else none

/-- Match the regex `word` + (if `plural` then `s?`) + (if `rightB` then `\b`)
at the current position (the left `\b` is checked by the caller).  The
`plural` alternative replicates the backtracking of `s?\b`. -/
def matchHere (word : List Char) (plural rightB : Bool) (s : List Char) : Bool :=
  match dropStart word s with
  | none => false
  | some rest =>
    if rightB then
      (plural &&
        (match rest with
         | c :: rest2 => c == 's' && rightOk rest2
         | [] => false)) || rightOk rest
    else true

/-- Search all positions of `s` for a match of `\b word s? (\b)`;
`prev` is the char before the current position. -/
def matchFrom (word : List Char) (plural rightB : Bool) : Option Char → List Char → Bool
  | prev, s =>
    (leftOk prev && matchHere word plural rightB s) ||
    (match s with
     | [] => false
     | c :: cs => matchFrom word plural rightB (some c) cs)

/-- `new RegExp("\\b" + word + ...).test(msg)`. -/
def testPattern (word : String) (plural rightB : Bool) (msg : List Char) : Bool :=
  matchFrom word.data plural rightB none msg

/-! ### detectPracticeMode (lib/practice-mode.ts lines 360-413) -/

def detectPracticeMode (message : String) : PracticeMode :=
  let lowerMessage := lowerChars message.data
  let isPractice :=
    containsSub lowerMessage "practice".data || containsSub lowerMessage "scenario".data
  let isTranslate :=
    containsSub lowerMessage "translate".data || containsSub lowerMessage "transform".data
  let isPracticeMode := isPractice || isTranslate
  if !isPracticeMode then
    { isPracticeMode := false, mode := none, focusComponent := none,
      difficulty := none, conversationMode := none }
  else
    let focusComponent :=
      if testPattern "observation" false false lowerMessage then some NVCComponent.observations
      else if testPattern "feeling" true true lowerMessage then some NVCComponent.feelings
      else if testPattern "need" true true lowerMessage then some NVCComponent.needs
      else if testPattern "request" true true lowerMessage then some NVCComponent.requests
      else none
    let difficulty :=
      if containsSub lowerMessage "beginner".data then some Difficulty.beginner
      else if containsSub lowerMessage "intermediate".data then some Difficulty.intermediate
      else if containsSub lowerMessage "advanced".data then some Difficulty.advanced
      else none
    let conversationMode :=
      if containsSub lowerMessage "multi-turn".data || containsSub lowerMessage "multi turn".data then
        some ConversationMode.multi
      else if containsSub lowerMessage "single".data || containsSub lowerMessage "quick".data then
        some ConversationMode.single
      else none
    { isPracticeMode := true,
      mode := some (if isTranslate then PracticeModeType.translate else PracticeModeType.practice),
      focusComponent := focusComponent,
      difficulty := difficulty,
      conversationMode := conversationMode }

/-! ### filterScenarios (lib/practice-mode.ts lines 422-444) -/

/-- The predicate of the `scenarios.filter(...)` callback.  Each guard is
`filter.field && scenario.field !== filter.field`: the first conjunct is a
JS truthiness test, so a criterion that is absent — or present but equal to
the empty string, which is falsy — imposes no constraint. -/
def scenarioPasses (filt : ScenarioFilter) (sc : Scenario) : Bool :=
  if filt.difficulty.elim false (fun d => d != "" && sc.difficulty != d) then false
  else if filt.focusComponent.elim false (fun d => d != "" && sc.focus_component != d) then
    false
  else if filt.conversationMode.elim false (fun d => d != "" && sc.mode != d) then false
  else true

def filterScenarios (scenarios : List Scenario) (filt : ScenarioFilter) : List Scenario :=
  scenarios.filter (scenarioPasses filt)

/-! ### Progress ledger data model (lib/progress-tracking.ts) -/

structure PracticeAttempt where
  id : String
  scenarioId : String
  timestamp : Nat
  mode : PracticeModeType
  focusComponent : Option NVCComponent
  difficulty : Option Difficulty
  rating : Option Nat
  completed : Bool
deriving DecidableEq, Repr

structure RecordAttemptInput where
  scenarioId : String
  mode : PracticeModeType
  completed : Bool
  focusComponent : Option NVCComponent
  difficulty : Option Difficulty
  rating : Option Nat
deriving DecidableEq, Repr

structure ProgressData where
  enabled : Bool
  attempts : List PracticeAttempt
  completedScenarios : List String
  streakDays : Nat
  lastPracticeDate : Option Nat
  totalPracticeTime : Nat
deriving DecidableEq, Repr

def DEFAULT_PROGRESS_DATA : ProgressData :=
  { enabled := false, attempts := [], completedScenarios := [],
    streakDays := 0, lastPracticeDate := none, totalPracticeTime := 0 }

/-! ### updateStreak (lines 161-179), as a pure function of the fields it
reads and writes plus `today` -/

def updateStreak (streakDays : Nat) (lastPracticeDate : Option Nat) (today : Nat) :
    Nat × Option Nat :=
  match lastPracticeDate with
  | none => (1, some today)
  | some d =>
    if d = today then (streakDays, some d)
    else if d + 1 = today then (streakDays + 1, some today)
    else (1, some today)

/-! ### A compact JSON value type and executable codec, modelling the
`JSON.stringify` / `JSON.parse` builtins used by the ledger.  Mutual
inductives (instead of nested `List`) keep induction straightforward. -/

mutual

inductive Json where
  | null : Json
  | bool : Bool → Json
  | num : Nat → Json
  | str : List Char → Json
  | arr : JsonArr → Json
  | obj : JsonObj → Json

inductive JsonArr where
  | nil : JsonArr
  | cons : Json → JsonArr → JsonArr

inductive JsonObj where
  | nil : JsonObj
  | cons : List Char → Json → JsonObj → JsonObj

end

/-- `"` -/
def qChar : Char := Char.ofNat 34
/-- `\` -/
def bsChar : Char := Char.ofNat 92
/-- opening curly brace -/
def obChar : Char := Char.ofNat 123
/-- closing curly brace -/
def cbChar : Char := Char.ofNat 125

def digitChar (d : Nat) : Char :=
  match d with
  | 0 => '0' | 1 => '1' | 2 => '2' | 3 => '3' | 4 => '4'
  | 5 => '5' | 6 => '6' | 7 => '7' | 8 => '8' | _ => '9'

def hexDigit (d : Nat) : Char :=
  match d with
  | 0 => '0' | 1 => '1' | 2 => '2' | 3 => '3' | 4 => '4'
  | 5 => '5' | 6 => '6' | 7 => '7' | 8 => '8' | 9 => '9'
  | 10 => 'a' | 11 => 'b' | 12 => 'c' | 13 => 'd' | 14 => 'e' | _ => 'f'

def hexVal (c : Char) : Option Nat :=
  if 48 ≤ c.toNat ∧ c.toNat ≤ 57 then some (c.toNat - 48)
  else if 97 ≤ c.toNat ∧ c.toNat ≤ 102 then some (c.toNat - 87)
  else none

/-- Decimal digits of a positive number, most significant first. -/
def natToCharsCore : Nat → List Char
  | 0 => []
  | n + 1 => natToCharsCore ((n + 1) / 10) ++ [digitChar ((n + 1) % 10)]
decreasing_by exact Nat.div_lt_self (Nat.succ_pos n) (by omega)

/-- Decimal rendering of a `Nat` (the JSON number emitted by stringify). -/
def natToChars (n : Nat) : List Char :=
  if n = 0 then ['0'] else natToCharsCore n

/-- Value of a list of decimal digit chars. -/
def digitsVal (ds : List Char) : Nat :=
  ds.foldl (fun a c => a * 10 + (c.toNat - 48)) 0

/-- Split a leading run of decimal digits. -/
def takeDigits : List Char → (List Char × List Char)
  | [] => ([], [])
  | c :: cs =>
    if c.isDigit then
      let (ds, r) := takeDigits cs
      (c :: ds, r)
    else ([], c :: cs)

/-- Escape one char of a JSON string literal (quote, backslash and control
chars escaped; the `\u00XX` form is used for all controls). -/
def escChar (c : Char) : List Char :=
  if c = qChar then [bsChar, qChar]
  else if c = bsChar then [bsChar, bsChar]
  else if c.toNat < 32 then
    [bsChar, 'u', '0', '0', hexDigit (c.toNat / 16), hexDigit (c.toNat % 16)]
  else [c]

/-- Escaped body of a string literal, including the closing quote. -/
def escChars : List Char → List Char
  | [] => [qChar]
  | c :: cs => escChar c ++ escChars cs

/-- Parse the body of a string literal (after the opening quote), returning
the decoded chars and the input after the closing quote. -/
def parseStrBody : List Char → Option (List Char × List Char)
  | [] => none
  | c :: cs =>
    if c = qChar then some ([], cs)
    else if c = bsChar then
      match cs with
      | [] => none
      | d :: cs2 =>
        if d = qChar then (parseStrBody cs2).map (fun p => (qChar :: p.1, p.2))
        else if d = bsChar then (parseStrBody cs2).map (fun p => (bsChar :: p.1, p.2))
        else if d = 'u' then
          match cs2 with
          | h1 :: h2 :: h3 :: h4 :: cs3 =>
            match hexVal h1, hexVal h2, hexVal h3, hexVal h4 with
            | some a, some b, some e, some f =>
              (parseStrBody cs3).map
                (fun p => (Char.ofNat (a * 4096 + b * 256 + e * 16 + f) :: p.1, p.2))
            | _, _, _, _ => none
          | _ => none
        else none
    else (parseStrBody cs).map (fun p => (c :: p.1, p.2))

mutual

/-- Compact JSON rendering of a value. -/
def encVal : Json → List Char
  | Json.null => ['n', 'u', 'l', 'l']
  | Json.bool true => ['t', 'r', 'u', 'e']
  | Json.bool false => ['f', 'a', 'l', 's', 'e']
  | Json.num n => natToChars n
  | Json.str s => qChar :: escChars s
  | Json.arr a => '[' :: encArrFirst a
  | Json.obj o => obChar :: encObjFirst o

/-- Elements of an array after the opening bracket. -/
def encArrFirst : JsonArr → List Char
  | JsonArr.nil => [']']
  | JsonArr.cons j a => encVal j ++ encArrRest a

/-- Trailing elements of an array, each preceded by a comma. -/
def encArrRest : JsonArr → List Char
  | JsonArr.nil => [']']
  | JsonArr.cons j a => ',' :: (encVal j ++ encArrRest a)

/-- Members of an object after the opening brace. -/
def encObjFirst : JsonObj → List Char
  | JsonObj.nil => [cbChar]
  | JsonObj.cons k v o => (qChar :: escChars k) ++ ':' :: (encVal v ++ encObjRest o)

/-- Trailing members of an object, each preceded by a comma. -/
def encObjRest : JsonObj → List Char
  | JsonObj.nil => [cbChar]
  | JsonObj.cons k v o => ',' :: ((qChar :: escChars k) ++ ':' :: (encVal v ++ encObjRest o))

end

/-- Match an expected literal character sequence at the front of the input. -/
def expectChars : List Char → List Char → Option (List Char)
  | [], s => some s
  | _ :: _, [] => none
  | w :: ws, c :: cs => if c = w then expectChars ws cs else none

/-- One dispatch step of the JSON value parser; the four function arguments
are the recursive entry points at the remaining fuel. -/
def parseValStep (pv : List Char → Option (Json × List Char))
    (pa : List Char → Option (JsonArr × List Char))
    (pm : List Char → Option (List Char × Json × List Char))
    (po : List Char → Option (JsonObj × List Char))
    (cs : List Char) : Option (Json × List Char) :=
  match cs with
  | [] => none
  | c :: rest =>
    if c = 'n' then
      match expectChars ['u', 'l', 'l'] rest with
      | some r => some (Json.null, r)
      | none => none
    else if c = 't' then
      match expectChars ['r', 'u', 'e'] rest with
      | some r => some (Json.bool true, r)
      | none => none
    else if c = 'f' then
      match expectChars ['a', 'l', 's', 'e'] rest with
      | some r => some (Json.bool false, r)
      | none => none
    else if c = qChar then
      match parseStrBody rest with
      | some (s, r) => some (Json.str s, r)
      | none => none
    else if c = '[' then
      match rest with
      | [] => none
      | c2 :: r0 =>
        if c2 = ']' then some (Json.arr JsonArr.nil, r0)
        else
          match pv rest with
          | some (j, r1) =>
            match pa r1 with
            | some (a, r2) => some (Json.arr (JsonArr.cons j a), r2)
            | none => none
          | none => none
    else if c = obChar then
      match rest with
      | [] => none
      | c2 :: r0 =>
        if c2 = cbChar then some (Json.obj JsonObj.nil, r0)
        else
          match pm rest with
          | some (k, v, r1) =>
            match po r1 with
            | some (o, r2) => some (Json.obj (JsonObj.cons k v o), r2)
            | none => none
          | none => none
    else if c.isDigit then
      let p := takeDigits (c :: rest)
      some (Json.num (digitsVal p.1), p.2)
    else none

/-- One step of the array-tail parser. -/
def parseArrRestStep (pv : List Char → Option (Json × List Char))
    (pa : List Char → Option (JsonArr × List Char))
    (cs : List Char) : Option (JsonArr × List Char) :=
  match cs with
  | [] => none
  | c :: r =>
    if c = ']' then some (JsonArr.nil, r)
    else if c = ',' then
      match pv r with
      | some (j, r1) =>
        match pa r1 with
        | some (a, r2) => some (JsonArr.cons j a, r2)
        | none => none
      | none => none
    else none

/-- One step of the `"key":value` member parser. -/
def parseMemberStep (pv : List Char → Option (Json × List Char))
    (cs : List Char) : Option (List Char × Json × List Char) :=
  match cs with
  | [] => none
  | c :: r =>
    if c = qChar then
      match parseStrBody r with
      | some (k, r1) =>
        (match r1 with
         | [] => none
         | c1 :: r2 =>
           if c1 = ':' then
             match pv r2 with
             | some (v, r3) => some (k, v, r3)
             | none => none
           else none)
      | none => none
    else none

/-- One step of the object-tail parser. -/
def parseObjRestStep (pm : List Char → Option (List Char × Json × List Char))
    (po : List Char → Option (JsonObj × List Char))
    (cs : List Char) : Option (JsonObj × List Char) :=
  match cs with
  | [] => none
  | c :: r =>
    if c = cbChar then some (JsonObj.nil, r)
    else if c = ',' then
      match pm r with
      | some (k, v, r1) =>
        match po r1 with
        | some (o, r2) => some (JsonObj.cons k v o, r2)
        | none => none
      | none => none
    else none

mutual

/-- Fuel-indexed recursive-descent JSON parser (compact grammar, mirroring
what `encVal` emits; arbitrary input either yields a value or `none`). -/
def parseVal : Nat → List Char → Option (Json × List Char)
  | 0, _ => none
  | fuel + 1, cs =>
    parseValStep (parseVal fuel) (parseArrRest fuel) (parseMember fuel)
      (parseObjRest fuel) cs

/-- After an array element: a comma and another element, or the close. -/
def parseArrRest : Nat → List Char → Option (JsonArr × List Char)
  | 0, _ => none
  | fuel + 1, cs => parseArrRestStep (parseVal fuel) (parseArrRest fuel) cs

/-- One `"key":value` member. -/
def parseMember : Nat → List Char → Option (List Char × Json × List Char)
  | 0, _ => none
  | fuel + 1, cs => parseMemberStep (parseVal fuel) cs

/-- After an object member: a comma and another member, or the close. -/
def parseObjRest : Nat → List Char → Option (JsonObj × List Char)
  | 0, _ => none
  | fuel + 1, cs => parseObjRestStep (parseMember fuel) (parseObjRest fuel) cs

end

mutual

/-- Fuel needed by `parseVal` to re-read `encVal j`. -/
def needV : Json → Nat
  | Json.null => 1
  | Json.bool _ => 1
  | Json.num _ => 1
  | Json.str _ => 1
  | Json.arr JsonArr.nil => 1
  | Json.arr (JsonArr.cons j a) => 1 + needV j + needA a
  | Json.obj JsonObj.nil => 1
  | Json.obj (JsonObj.cons _ v o) => 2 + needV v + needO o

/-- Fuel needed by `parseArrRest`. -/
def needA : JsonArr → Nat
  | JsonArr.nil => 1
  | JsonArr.cons j a => 1 + needV j + needA a

/-- Fuel needed by `parseObjRest`. -/
def needO : JsonObj → Nat
  | JsonObj.nil => 1
  | JsonObj.cons _ v o => 2 + needV v + needO o

end

/-- `JSON.stringify` on a JSON value. -/
def jstringify (j : Json) : String := String.mk (encVal j)

/-- `JSON.parse`: `none` models a thrown `SyntaxError`. -/
def jparse (s : String) : Option Json :=
  match parseVal (s.data.length + 1) s.data with
  | some (j, []) => some j
  | _ => none

/-! ### Serialization of the Progress Record (field order as in the object
literals of lib/progress-tracking.ts; `JSON.stringify` drops fields whose
value is `undefined`, so absent optional fields are omitted). -/

def arrOfList : List Json → JsonArr
  | [] => JsonArr.nil
  | j :: js => JsonArr.cons j (arrOfList js)

def objOfList : List (List Char × Json) → JsonObj
  | [] => JsonObj.nil
  | (k, v) :: kvs => JsonObj.cons k v (objOfList kvs)

def modeChars : PracticeModeType → List Char
  | PracticeModeType.practice => "practice".data
  | PracticeModeType.translate => "translate".data

def componentChars : NVCComponent → List Char
  | NVCComponent.observations => "observations".data
  | NVCComponent.feelings => "feelings".data
  | NVCComponent.needs => "needs".data
  | NVCComponent.requests => "requests".data

def difficultyChars : Difficulty → List Char
  | Difficulty.beginner => "beginner".data
  | Difficulty.intermediate => "intermediate".data
  | Difficulty.advanced => "advanced".data

def attemptToJson (a : PracticeAttempt) : Json :=
  Json.obj (objOfList (
    [("id".data, Json.str a.id.data),
     ("timestamp".data, Json.num a.timestamp),
     ("scenarioId".data, Json.str a.scenarioId.data),
     ("mode".data, Json.str (modeChars a.mode)),
     ("completed".data, Json.bool a.completed)]
    ++ (match a.focusComponent with
        | some f => [("focusComponent".data, Json.str (componentChars f))]
        | none => [])
    ++ (match a.difficulty with
        | some d => [("difficulty".data, Json.str (difficultyChars d))]
        | none => [])
    ++ (match a.rating with
        | some r => [("rating".data, Json.num r)]
        | none => [])))

def dateToJson : Option Nat → Json
  | none => Json.null
  | some d => Json.num d

def toJson (p : ProgressData) : Json :=
  Json.obj (objOfList
    [("enabled".data, Json.bool p.enabled),
     ("attempts".data, Json.arr (arrOfList (p.attempts.map attemptToJson))),
     ("completedScenarios".data,
        Json.arr (arrOfList (p.completedScenarios.map (fun s => Json.str s.data)))),
     ("streakDays".data, Json.num p.streakDays),
     ("lastPracticeDate".data, dateToJson p.lastPracticeDate),
     ("totalPracticeTime".data, Json.num p.totalPracticeTime)])

/-! ### Decoding a JSON value back into a typed Progress Record.  The code
itself never decodes (it casts), so this is the semantic reading used to
state round-trip and invariant claims. -/

def jLookup (k : List Char) : JsonObj → Option Json
  | JsonObj.nil => none
  | JsonObj.cons k2 v o => if k2 = k then some v else jLookup k o

def decodeBool : Json → Option Bool
  | Json.bool b => some b
  | _ => none

def decodeNat : Json → Option Nat
  | Json.num n => some n
  | _ => none

def decodeString : Json → Option String
  | Json.str s => some (String.mk s)
  | _ => none

def decodeMode (j : Json) : Option PracticeModeType :=
  match j with
  | Json.str s =>
    if s = "practice".data then some PracticeModeType.practice
    else if s = "translate".data then some PracticeModeType.translate
    else none
  | _ => none

def decodeComponent (j : Json) : Option NVCComponent :=
  match j with
  | Json.str s =>
    if s = "observations".data then some NVCComponent.observations
    else if s = "feelings".data then some NVCComponent.feelings
    else if s = "needs".data then some NVCComponent.needs
    else if s = "requests".data then some NVCComponent.requests
    else none
  | _ => none

def decodeDifficulty (j : Json) : Option Difficulty :=
  match j with
  | Json.str s =>
    if s = "beginner".data then some Difficulty.beginner
    else if s = "intermediate".data then some Difficulty.intermediate
    else if s = "advanced".data then some Difficulty.advanced
    else none
  | _ => none

/-- Decode an optional (possibly missing) field. -/
def decodeOpt (f : Json → Option α) : Option Json → Option (Option α)
  | none => some none
  | some v => (f v).map some

def decodeDate : Json → Option (Option Nat)
  | Json.null => some none
  | Json.num d => some (some d)
  | _ => none

def decodeAttempt (j : Json) : Option PracticeAttempt :=
  match j with
  | Json.obj o => do
    let id ← jLookup "id".data o >>= decodeString
    let timestamp ← jLookup "timestamp".data o >>= decodeNat
    let scenarioId ← jLookup "scenarioId".data o >>= decodeString
    let mode ← jLookup "mode".data o >>= decodeMode
    let completed ← jLookup "completed".data o >>= decodeBool
    let focusComponent ← decodeOpt decodeComponent (jLookup "focusComponent".data o)
    let difficulty ← decodeOpt decodeDifficulty (jLookup "difficulty".data o)
    let rating ← decodeOpt decodeNat (jLookup "rating".data o)
    pure { id := id, scenarioId := scenarioId, timestamp := timestamp, mode := mode,
           focusComponent := focusComponent, difficulty := difficulty,
           rating := rating, completed := completed }
  | _ => none

def decodeList (f : Json → Option α) : JsonArr → Option (List α)
  | JsonArr.nil => some []
  | JsonArr.cons j a => do
    let x ← f j
    let xs ← decodeList f a
    pure (x :: xs)

def decodeArr (f : Json → Option α) : Json → Option (List α)
  | Json.arr a => decodeList f a
  | _ => none

/-- Semantic reading of a JSON value as a Progress Record. -/
def fromJson (j : Json) : Option ProgressData :=
  match j with
  | Json.obj o => do
    let enabled ← jLookup "enabled".data o >>= decodeBool
    let attempts ← jLookup "attempts".data o >>= decodeArr decodeAttempt
    let completedScenarios ← jLookup "completedScenarios".data o >>= decodeArr decodeString
    let streakDays ← jLookup "streakDays".data o >>= decodeNat
    let lastPracticeDate ← jLookup "lastPracticeDate".data o >>= decodeDate
    let totalPracticeTime ← jLookup "totalPracticeTime".data o >>= decodeNat
    pure { enabled := enabled, attempts := attempts,
           completedScenarios := completedScenarios, streakDays := streakDays,
           lastPracticeDate := lastPracticeDate, totalPracticeTime := totalPracticeTime }
  | _ => none

/-! ### The tracker state and its operations (createProgressTracker).
`store` is the `localStorage` slot under `nvc_progress`. -/

structure TrackerState where
  data : ProgressData
  store : Option String
deriving DecidableEq

def serializeData (d : ProgressData) : String := jstringify (toJson d)

/-- `saveData()`: persist the current record. -/
def saveData (s : TrackerState) : TrackerState :=
  { s with store := some (serializeData s.data) }

def isEnabled (s : TrackerState) : Bool := s.data.enabled

def enable (s : TrackerState) : TrackerState :=
  saveData { s with data := { s.data with enabled := true } }

def disable (s : TrackerState) (clearData : Bool) : TrackerState :=
  let d1 := { s.data with enabled := false }
  let d2 := if clearData then DEFAULT_PROGRESS_DATA else d1
  saveData { s with data := d2 }

/-- `recordAttempt(input)` (lines 201-225).  `newId` and `now` stand for
`generateId()` and `Date.now()`, `today` for `getToday()`. -/
def recordAttempt (s : TrackerState) (input : RecordAttemptInput)
    (newId : String) (now : Nat) (today : Nat) : TrackerState :=
  if !s.data.enabled then s
  else
    let attempt : PracticeAttempt :=
      { id := newId, timestamp := now, scenarioId := input.scenarioId,
        mode := input.mode, completed := input.completed,
        focusComponent := input.focusComponent, difficulty := input.difficulty,
        rating := input.rating }
    let d1 := { s.data with attempts := s.data.attempts ++ [attempt] }
    let d2 :=
      if input.completed && !(d1.completedScenarios.contains input.scenarioId) then
        { d1 with completedScenarios := d1.completedScenarios ++ [input.scenarioId] }
      else d1
    let streak := updateStreak d2.streakDays d2.lastPracticeDate today
    let d3 := { d2 with streakDays := streak.1, lastPracticeDate := streak.2 }
    saveData { s with data := d3 }

/-- `getAttempts()` returns a copy of the attempts list (copying is the
identity on immutable lists). -/
def getAttempts (s : TrackerState) : List PracticeAttempt := s.data.attempts

def getCompletedScenarios (s : TrackerState) : List String := s.data.completedScenarios

def getStreak (s : TrackerState) : Nat := s.data.streakDays

/-! ### getStats (lines 239-270) -/

/-- `Math.round` on an exact rational: round half toward plus infinity. -/
def jsRound (q : ℚ) : ℤ := ⌊q + 1 / 2⌋

/-- `(m[k] || 0) + 1` on a JS object used as a counter map (first-seen key
order, as `Object` insertion order). -/
def bumpCount : List (String × Nat) → String → List (String × Nat)
  | [], k => [(k, 1)]
  | (k2, n) :: rest, k =>
    if k2 = k then (k2, n + 1) :: rest else (k2, n) :: bumpCount rest k

def componentName (c : NVCComponent) : String := String.mk (componentChars c)

def difficultyName (d : Difficulty) : String := String.mk (difficultyChars d)

def modeName (m : PracticeModeType) : String := String.mk (modeChars m)

/-- The `for (const attempt of attempts)` loop building the three maps. -/
def statsMaps (attempts : List PracticeAttempt) :
    List (String × Nat) × List (String × Nat) × List (String × Nat) :=
  attempts.foldl
    (fun acc a =>
      let bc := match a.focusComponent with
        | some f => bumpCount acc.1 (componentName f)
        | none => acc.1
      let bd := match a.difficulty with
        | some d => bumpCount acc.2.1 (difficultyName d)
        | none => acc.2.1
      let bm := bumpCount acc.2.2 (modeName a.mode)
      (bc, bd, bm))
    ([], [], [])

structure ProgressStats where
  totalAttempts : Nat
  completedAttempts : Nat
  completionRate : ℤ
  averageRating : ℚ
  streakDays : Nat
  byComponent : List (String × Nat)
  byDifficulty : List (String × Nat)
  byMode : List (String × Nat)
deriving DecidableEq

def getStats (d : ProgressData) : ProgressStats :=
  let attempts := d.attempts
  let completedAttempts := (attempts.filter (fun a => a.completed)).length
  let ratedAttempts := attempts.filter (fun a => a.rating.isSome)
  let maps := statsMaps attempts
  { totalAttempts := attempts.length
    completedAttempts := completedAttempts
    completionRate :=
      if attempts.length > 0 then
        jsRound (((completedAttempts : ℚ) / (attempts.length : ℚ)) * 100)
      else 0
    averageRating :=
      if ratedAttempts.length > 0 then
        ((jsRound ((ratedAttempts.foldl (fun sum a => sum + ((a.rating.getD 0 : Nat) : ℚ)) 0)
            / (ratedAttempts.length : ℚ) * 10) : ℚ) / 10)
      else 0
    streakDays := d.streakDays
    byComponent := maps.1
    byDifficulty := maps.2.1
    byMode := maps.2.2 }

/-! ### exportData / importData (lines 280-292).  These work on the raw
JSON value: `importData` assigns whatever parses, with no validation, and
swallows parse failures.  The state here is the JSON data slot plus the
storage slot. -/

structure JsonTrackerState where
  data : Json
  store : Option String

def exportData (s : JsonTrackerState) : String := jstringify s.data

def importData (s : JsonTrackerState) (json : String) : JsonTrackerState :=
  match jparse json with
  | some imported => { data := imported, store := some (jstringify imported) }
  | none => s

/-! ### The ledger invariant of the spec (§3): every completed scenario id is
witnessed by a completed attempt, and the member list has no duplicates. -/

def ledgerInvariant (d : ProgressData) : Prop :=
  (∀ sid ∈ d.completedScenarios,
     ∃ a ∈ d.attempts, a.completed = true ∧ a.scenarioId = sid) ∧
  d.completedScenarios.Nodup

instance (d : ProgressData) : Decidable (ledgerInvariant d) := by
  unfold ledgerInvariant; infer_instance

/-! ### Spec-side vocabulary used to state the claims -/

/-- The component patterns of the code, in the fixed iteration order of
`componentPatterns`: `\bobservation`, `\bfeelings?\b`, `\bneeds?\b`,
`\brequests?\b`. -/
def componentMatches (c : NVCComponent) (lower : List Char) : Bool :=
  match c with
  | NVCComponent.observations => testPattern "observation" false false lower
  | NVCComponent.feelings => testPattern "feeling" true true lower
  | NVCComponent.needs => testPattern "need" true true lower
  | NVCComponent.requests => testPattern "request" true true lower

/-- The word-boundary singular/plural pattern the spec describes for each
component: `\b word s? \b` (for Observations this is what `observation(s)`
with word boundaries would be — the code's actual pattern differs). -/
def specComponentMatches (c : NVCComponent) (lower : List Char) : Bool :=
  match c with
  | NVCComponent.observations => testPattern "observation" true true lower
  | NVCComponent.feelings => testPattern "feeling" true true lower
  | NVCComponent.needs => testPattern "need" true true lower
  | NVCComponent.requests => testPattern "request" true true lower

/-- Fixed test order of the components. -/
def componentOrder : NVCComponent → Nat
  | NVCComponent.observations => 0
  | NVCComponent.feelings => 1
  | NVCComponent.needs => 2
  | NVCComponent.requests => 3

/-- The spec's pass predicate for `filterScenarios`: every present criterion
field equals the record's corresponding field. -/
def specPasses (filt : ScenarioFilter) (sc : Scenario) : Bool :=
  (filt.difficulty.all fun d => sc.difficulty == d) &&
  (filt.focusComponent.all fun d => sc.focus_component == d) &&
  (filt.conversationMode.all fun d => sc.mode == d)

/-- The amended pass predicate: a present criterion constrains by exact
string equality only when it is non-empty (the empty string is falsy in the
code's truthiness guard). -/
def specPassesAmended (filt : ScenarioFilter) (sc : Scenario) : Bool :=
  (filt.difficulty.all fun d => d == "" || sc.difficulty == d) &&
  (filt.focusComponent.all fun d => d == "" || sc.focus_component == d) &&
  (filt.conversationMode.all fun d => d == "" || sc.mode == d)

/-- Input continuations that cannot extend a leading number literal (used to
state the parse-of-stringify round trip). -/
def noDigitHead : List Char → Bool
  | [] => true
  | c :: _ => !c.isDigit

/-! ## Lemmas and claim theorems -/

theorem startsWithSub_iff (needle hay : List Char) :
    startsWithSub needle hay = true ↔ needle <+: hay := by
  induction needle generalizing hay with
  | nil => simp [startsWithSub]
  | cons n ns ih =>
    cases hay with
    | nil => simp [startsWithSub]
    | cons h hs => simp [startsWithSub, List.cons_prefix_cons, ih]

theorem containsSub_iff (hay needle : List Char) :
    containsSub hay needle = true ↔ needle <:+: hay := by
  induction hay with
  | nil =>
    rw [containsSub]
    cases needle with
    | nil => simp [startsWithSub]
    | cons n ns => simp [startsWithSub, List.infix_nil]
  | cons c t ih =>
    rw [containsSub]
    by_cases h : startsWithSub needle (c :: t) = true
    · simp only [h, if_true, true_iff]
      exact ((startsWithSub_iff needle (c :: t)).mp h).isInfix
    · simp only [h, if_false, Bool.false_eq_true, ih, List.infix_cons_iff]
      constructor
      · exact Or.inr
      · rintro (hp | hi)
        · exact absurd ((startsWithSub_iff needle (c :: t)).mpr hp) h
        · exact hi

/-- C5: `detectPracticeMode` reports a practice request iff the lower-cased
message contains one of the literal substrings "practice", "scenario",
"translate", "transform"; the mode is `translate` whenever a translate-type
keyword matched (even together with a practice-type keyword) and `practice`
otherwise; and when no keyword matched, the mode, focus component,
difficulty and conversation-mode fields are all absent. -/
theorem detect_practice_request_spec (message : String) :
    ((detectPracticeMode message).isPracticeMode = true ↔
      ("practice".data <:+: lowerChars message.data ∨
       "scenario".data <:+: lowerChars message.data ∨
       "translate".data <:+: lowerChars message.data ∨
       "transform".data <:+: lowerChars message.data)) ∧
    (("translate".data <:+: lowerChars message.data ∨
      "transform".data <:+: lowerChars message.data) →
      (detectPracticeMode message).mode = some PracticeModeType.translate) ∧
    ((detectPracticeMode message).isPracticeMode = true →
      ¬("translate".data <:+: lowerChars message.data ∨
        "transform".data <:+: lowerChars message.data) →
      (detectPracticeMode message).mode = some PracticeModeType.practice) ∧
    ((detectPracticeMode message).isPracticeMode = false →
      (detectPracticeMode message).mode = none ∧
      (detectPracticeMode message).focusComponent = none ∧
      (detectPracticeMode message).difficulty = none ∧
      (detectPracticeMode message).conversationMode = none) := by
  cases h1 : containsSub (lowerChars message.data) "practice".data <;>
  cases h2 : containsSub (lowerChars message.data) "scenario".data <;>
  cases h3 : containsSub (lowerChars message.data) "translate".data <;>
  cases h4 : containsSub (lowerChars message.data) "transform".data <;>
  simp_all [detectPracticeMode, ← containsSub_iff]

theorem detect_practice_request_spec_witness :
    (detectPracticeMode "Help me translate this into NVC").mode = some PracticeModeType.translate ∧
    (detectPracticeMode "I want to practice NVC").mode = some PracticeModeType.practice ∧
    (detectPracticeMode "hello there").focusComponent = none :=
  ⟨(detect_practice_request_spec "Help me translate this into NVC").2.1
      (Or.inl ((containsSub_iff _ _).mp (by decide))),
   (detect_practice_request_spec "I want to practice NVC").2.2.1 (by decide)
      (fun h => by
        rcases h with h | h
        · exact absurd ((containsSub_iff _ _).mpr h) (by decide)
        · exact absurd ((containsSub_iff _ _).mpr h) (by decide)),
   ((detect_practice_request_spec "hello there").2.2.2 (by decide)).2.1⟩

/-- C6 counterexample: on "practice observational" none of the word-boundary
singular/plural patterns `observation(s)`, `feeling(s)`, `need(s)`,
`request(s)` matches the lower-cased message, so the claim says the focus
component is left unset; but `detectPracticeMode` sets it to Observations,
because the code's pattern `\bobservation` has no right boundary and matches
the prefix of "observational". -/
theorem detect_focus_component_counterexample :
    (detectPracticeMode "practice observational").focusComponent =
      some NVCComponent.observations ∧
    specComponentMatches NVCComponent.observations
      (lowerChars "practice observational".data) = false ∧
    specComponentMatches NVCComponent.feelings
      (lowerChars "practice observational".data) = false ∧
    specComponentMatches NVCComponent.needs
      (lowerChars "practice observational".data) = false ∧
    specComponentMatches NVCComponent.requests
      (lowerChars "practice observational".data) = false := by
  decide

/-- C6 amended: for every practice-candidate message, the focus component is
the first component, in the fixed order Observations, Feelings, Needs,
Requests, whose pattern matches the lower-cased message, where the patterns
are `\bfeelings?\b`, `\bneeds?\b`, `\brequests?\b` for the last three but the
prefix-only `\bobservation` (no plural/right boundary) for Observations; at
most one component is ever set, and if no pattern matches the field is left
unset.  Soundness (conjunct 1): whatever is set matches and nothing earlier
in the order does; emptiness (conjunct 2): no match leaves the field unset;
completeness (conjunct 3): any matching component forces the field to be
set, to a component no later in the order — together with conjunct 1 this
pins the result to exactly the first matcher. -/
theorem detect_focus_component_amended (message : String)
    (h : (detectPracticeMode message).isPracticeMode = true) :
    (∀ c, (detectPracticeMode message).focusComponent = some c →
      componentMatches c (lowerChars message.data) = true ∧
      ∀ c2, componentOrder c2 < componentOrder c →
        componentMatches c2 (lowerChars message.data) = false) ∧
    ((∀ c, componentMatches c (lowerChars message.data) = false) →
      (detectPracticeMode message).focusComponent = none) ∧
    (∀ c, componentMatches c (lowerChars message.data) = true →
      ∃ c2, (detectPracticeMode message).focusComponent = some c2 ∧
        componentOrder c2 ≤ componentOrder c) := by
  by_cases hb : ((containsSub (lowerChars message.data) "practice".data
      || containsSub (lowerChars message.data) "scenario".data)
      || (containsSub (lowerChars message.data) "translate".data
      || containsSub (lowerChars message.data) "transform".data)) = true
  case neg =>
    exfalso
    apply hb
    cases h1 : containsSub (lowerChars message.data) "practice".data <;>
    cases h2 : containsSub (lowerChars message.data) "scenario".data <;>
    cases h3 : containsSub (lowerChars message.data) "translate".data <;>
    cases h4 : containsSub (lowerChars message.data) "transform".data <;>
    simp_all [detectPracticeMode]
  case pos =>
    have hfc : (detectPracticeMode message).focusComponent =
        (if componentMatches NVCComponent.observations (lowerChars message.data) then
          some NVCComponent.observations
         else if componentMatches NVCComponent.feelings (lowerChars message.data) then
          some NVCComponent.feelings
         else if componentMatches NVCComponent.needs (lowerChars message.data) then
          some NVCComponent.needs
         else if componentMatches NVCComponent.requests (lowerChars message.data) then
          some NVCComponent.requests
         else none) := by
      simp [detectPracticeMode, hb, componentMatches]
    refine ⟨?_, ?_, ?_⟩
    · intro c hc
      rw [hfc] at hc
      split_ifs at hc with h1 h2 h3 h4
      all_goals (try cases hc)
      · exact ⟨h1, by intro c2 hlt; cases c2 <;> simp_all [componentOrder]⟩
      · exact ⟨h2, by intro c2 hlt; cases c2 <;> simp_all [componentOrder]⟩
      · exact ⟨h3, by intro c2 hlt; cases c2 <;> simp_all [componentOrder]⟩
      · exact ⟨h4, by intro c2 hlt; cases c2 <;> simp_all [componentOrder]⟩
    · intro hall
      rw [hfc]
      simp [hall NVCComponent.observations, hall NVCComponent.feelings,
        hall NVCComponent.needs, hall NVCComponent.requests]
    · intro c hc
      rw [hfc]
      by_cases h1 : componentMatches NVCComponent.observations (lowerChars message.data) = true
      · exact ⟨NVCComponent.observations, by simp [h1],
          by cases c <;> simp [componentOrder]⟩
      · by_cases h2 : componentMatches NVCComponent.feelings (lowerChars message.data) = true
        · refine ⟨NVCComponent.feelings, by simp [h1, h2], ?_⟩
          cases c
          · exact absurd hc h1
          all_goals simp [componentOrder]
        · by_cases h3 : componentMatches NVCComponent.needs (lowerChars message.data) = true
          · refine ⟨NVCComponent.needs, by simp [h1, h2, h3], ?_⟩
            cases c
            · exact absurd hc h1
            · exact absurd hc h2
            all_goals simp [componentOrder]
          · by_cases h4 :
              componentMatches NVCComponent.requests (lowerChars message.data) = true
            · refine ⟨NVCComponent.requests, by simp [h1, h2, h3, h4], ?_⟩
              cases c
              · exact absurd hc h1
              · exact absurd hc h2
              · exact absurd hc h3
              · simp [componentOrder]
            · cases c
              · exact absurd hc h1
              · exact absurd hc h2
              · exact absurd hc h3
              · exact absurd hc h4

theorem detect_focus_component_amended_witness :
    (detectPracticeMode "practice my feelings").isPracticeMode = true ∧
    componentMatches NVCComponent.feelings
      (lowerChars "practice my feelings".data) = true ∧
    componentMatches NVCComponent.observations
      (lowerChars "practice my feelings".data) = false ∧
    (∃ c2, (detectPracticeMode "practice my feelings").focusComponent = some c2 ∧
      componentOrder c2 ≤ componentOrder NVCComponent.feelings) :=
  ⟨by decide,
   ((detect_focus_component_amended "practice my feelings" (by decide)).1
      NVCComponent.feelings (by decide)).1,
   ((detect_focus_component_amended "practice my feelings" (by decide)).1
      NVCComponent.feelings (by decide)).2 NVCComponent.observations (by decide),
   (detect_focus_component_amended "practice my feelings" (by decide)).2.2
      NVCComponent.feelings (by decide)⟩

theorem truthyGuard_eq (o : Option String) (x : String) :
    (!(o.elim false (fun d => d != "" && x != d))) =
      o.all (fun d => d == "" || x == d) := by
  cases o with
  | none => rfl
  | some d =>
    simp only [Option.elim, Option.all]
    cases hb1 : (d == "") <;> cases hb2 : (x == d) <;> simp_all [bne]

theorem scenarioPasses_eq_specPassesAmended (filt : ScenarioFilter) (sc : Scenario) :
    scenarioPasses filt sc = specPassesAmended filt sc := by
  rw [scenarioPasses, specPassesAmended]
  rw [show ∀ a b c : Bool,
      (if a then false else if b then false else if c then false else true) =
        ((!a && !b) && !c) from by decide]
  rw [truthyGuard_eq, truthyGuard_eq, truthyGuard_eq]

/-- C8 counterexample: the code's guards test JS truthiness, not presence.
With the present-but-empty criterion `focusComponent = ""` (representable,
since that filter field is typed `string`), the guard
`filter.focusComponent && ...` is falsy and the constraint is skipped, so a
record whose `focus_component` is "observations" passes — although the
claim's exact-equality reading of a present criterion rejects it. -/
theorem filterScenarios_counterexample :
    filterScenarios
        [{ title := "t", difficulty := "beginner", focus_component := "observations",
           mode := "single" }]
        { difficulty := none, focusComponent := some "", conversationMode := none } =
      [{ title := "t", difficulty := "beginner", focus_component := "observations",
         mode := "single" }] ∧
    specPasses
      { difficulty := none, focusComponent := some "", conversationMode := none }
      { title := "t", difficulty := "beginner", focus_component := "observations",
        mode := "single" } = false := by
  decide

/-- C8 amended: `filterScenarios` returns exactly the records for which
every present AND non-empty criterion field (difficulty, focusComponent,
conversationMode) equals the record's corresponding field (difficulty,
focus_component, mode) by exact string equality, preserving the input order
(the result is the `filter` by that predicate, hence a sublist of the
input); absent criteria — and present-but-empty-string criteria, which are
falsy in the code's truthiness guard — impose no constraint, and empty
criteria return the input unchanged. -/
theorem filterScenarios_spec (scenarios : List Scenario) (filt : ScenarioFilter) :
    filterScenarios scenarios filt = scenarios.filter (specPassesAmended filt) ∧
    List.Sublist (filterScenarios scenarios filt) scenarios ∧
    filterScenarios scenarios
      { difficulty := none, focusComponent := none, conversationMode := none } = scenarios := by
  refine ⟨?_, ?_, ?_⟩
  · exact List.filter_congr (fun sc _ => scenarioPasses_eq_specPassesAmended filt sc)
  · exact List.filter_sublist _
  · exact List.filter_eq_self.mpr (fun a _ => rfl)

theorem recordAttempt_data_streak (s : TrackerState) (input : RecordAttemptInput)
    (newId : String) (now today : Nat) (henabled : s.data.enabled = true) :
    ((recordAttempt s input newId now today).data.streakDays,
     (recordAttempt s input newId now today).data.lastPracticeDate) =
      updateStreak s.data.streakDays s.data.lastPracticeDate today := by
  simp only [recordAttempt, henabled, Bool.not_true, Bool.false_eq_true, if_false, saveData]
  split <;> simp

/-- C1: when tracking is enabled, the streak update performed by
`recordAttempt` is exactly the case analysis on `(lastPracticeDate, today)`:
never practiced → streak 1 and date today; practiced today → both fields
unchanged; practiced the day before today → streak incremented by exactly 1
and date today; any other gap (two or more days, or a future date) → streak
reset to 1 and date today. -/
theorem recordAttempt_streak_spec (s : TrackerState) (input : RecordAttemptInput)
    (newId : String) (now today : Nat) (henabled : s.data.enabled = true) :
    (s.data.lastPracticeDate = none →
      (recordAttempt s input newId now today).data.streakDays = 1 ∧
      (recordAttempt s input newId now today).data.lastPracticeDate = some today) ∧
    (s.data.lastPracticeDate = some today →
      (recordAttempt s input newId now today).data.streakDays = s.data.streakDays ∧
      (recordAttempt s input newId now today).data.lastPracticeDate =
        s.data.lastPracticeDate) ∧
    (∀ d, s.data.lastPracticeDate = some d → d + 1 = today →
      (recordAttempt s input newId now today).data.streakDays = s.data.streakDays + 1 ∧
      (recordAttempt s input newId now today).data.lastPracticeDate = some today) ∧
    (∀ d, s.data.lastPracticeDate = some d → d ≠ today → d + 1 ≠ today →
      (recordAttempt s input newId now today).data.streakDays = 1 ∧
      (recordAttempt s input newId now today).data.lastPracticeDate = some today) := by
  have h := recordAttempt_data_streak s input newId now today henabled
  have h1 := congrArg Prod.fst h
  have h2 := congrArg Prod.snd h
  simp only at h1 h2
  refine ⟨fun h0 => ?_, fun h0 => ?_, fun d hd hy => ?_, fun d hd hne hny => ?_⟩
  · rw [h0] at h1 h2; simp [updateStreak] at h1 h2; exact ⟨h1, h2⟩
  · rw [h0] at h1 h2; simp [updateStreak] at h1 h2; rw [h0]; exact ⟨h1, h2⟩
  · rw [hd] at h1 h2
    have hdt : d ≠ today := by omega
    simp [updateStreak, hdt, hy] at h1 h2
    exact ⟨h1, h2⟩
  · rw [hd] at h1 h2
    simp [updateStreak, hne, hny] at h1 h2
    exact ⟨h1, h2⟩

theorem recordAttempt_streak_spec_witness :
    ((recordAttempt
        { data := { enabled := true, attempts := [], completedScenarios := [],
                    streakDays := 3, lastPracticeDate := some 5, totalPracticeTime := 0 },
          store := none }
        { scenarioId := "s1", mode := PracticeModeType.practice, completed := true,
          focusComponent := none, difficulty := none, rating := none }
        "a1" 100 6).data.streakDays = 4 ∧
     (recordAttempt
        { data := { enabled := true, attempts := [], completedScenarios := [],
                    streakDays := 3, lastPracticeDate := some 5, totalPracticeTime := 0 },
          store := none }
        { scenarioId := "s1", mode := PracticeModeType.practice, completed := true,
          focusComponent := none, difficulty := none, rating := none }
        "a1" 100 6).data.lastPracticeDate = some 6) :=
  ((recordAttempt_streak_spec
      { data := { enabled := true, attempts := [], completedScenarios := [],
                  streakDays := 3, lastPracticeDate := some 5, totalPracticeTime := 0 },
        store := none }
      { scenarioId := "s1", mode := PracticeModeType.practice, completed := true,
        focusComponent := none, difficulty := none, rating := none }
      "a1" 100 6 rfl).2.2.1 5 rfl rfl)

/-- C2: when tracking is disabled, `recordAttempt` is a complete no-op: the
whole tracker state (in-memory record and persisted slot) is returned
unchanged, and in particular `getAttempts` keeps its prior length.  (The
model is a total function, so no error can be raised.) -/
theorem recordAttempt_disabled_noop (s : TrackerState) (input : RecordAttemptInput)
    (newId : String) (now today : Nat) (hdisabled : s.data.enabled = false) :
    recordAttempt s input newId now today = s ∧
    getAttempts (recordAttempt s input newId now today) = getAttempts s ∧
    (getAttempts (recordAttempt s input newId now today)).length =
      (getAttempts s).length ∧
    (recordAttempt s input newId now today).data.completedScenarios =
      s.data.completedScenarios ∧
    (recordAttempt s input newId now today).data.streakDays = s.data.streakDays ∧
    (recordAttempt s input newId now today).data.lastPracticeDate =
      s.data.lastPracticeDate ∧
    (recordAttempt s input newId now today).store = s.store := by
  have h : recordAttempt s input newId now today = s := by
    simp [recordAttempt, hdisabled]
  exact ⟨h, by rw [h], by rw [h], by rw [h], by rw [h], by rw [h], by rw [h]⟩

theorem recordAttempt_disabled_noop_witness :
    recordAttempt
      { data := DEFAULT_PROGRESS_DATA, store := none }
      { scenarioId := "s1", mode := PracticeModeType.practice, completed := true,
        focusComponent := none, difficulty := none, rating := some 5 }
      "a1" 100 6 =
      { data := DEFAULT_PROGRESS_DATA, store := none } :=
  (recordAttempt_disabled_noop
    { data := DEFAULT_PROGRESS_DATA, store := none }
    { scenarioId := "s1", mode := PracticeModeType.practice, completed := true,
      focusComponent := none, difficulty := none, rating := some 5 }
    "a1" 100 6 rfl).1

theorem length_filterMap_rating (l : List PracticeAttempt) :
    (l.filterMap (fun a => a.rating)).length =
      (l.filter (fun a => a.rating.isSome)).length := by
  induction l with
  | nil => rfl
  | cons a t ih =>
    cases h : a.rating <;> simp [List.filterMap_cons, List.filter_cons, h, ih]

theorem foldl_rating_sum (l : List PracticeAttempt) (init : ℚ) :
    (l.filter (fun a => a.rating.isSome)).foldl
        (fun sum a => sum + ((a.rating.getD 0 : Nat) : ℚ)) init =
      init + ((l.filterMap (fun a => a.rating)).sum : ℚ) := by
  induction l generalizing init with
  | nil => simp
  | cons a t ih =>
    cases h : a.rating with
    | none => simp [List.filter_cons, List.filterMap_cons, h, ih]
    | some r =>
      simp [List.filter_cons, List.filterMap_cons, h, ih]
      ring

/-- C7: `getStats` returns `completionRate` equal to
`completedAttempts / totalAttempts * 100` rounded to the nearest integer
(0 when there are no attempts), and `averageRating` equal to the mean of the
ratings present, rounded to one decimal place (0 when no attempt is rated);
in particular 4 attempts with 3 completed give rate 75, and ratings
`[4, 5, 3]` give average 4.0.  (JS numbers modelled as exact rationals;
`Math.round x = ⌊x + 1/2⌋`.) -/
theorem getStats_rates_spec :
    (∀ d : ProgressData,
      (getStats d).completionRate =
        (if d.attempts.length = 0 then 0
         else jsRound ((((d.attempts.filter (fun a => a.completed)).length : ℚ) * 100) /
            (d.attempts.length : ℚ))) ∧
      (getStats d).averageRating =
        (if d.attempts.filterMap (fun a => a.rating) = [] then 0
         else (jsRound ((((d.attempts.filterMap (fun a => a.rating)).sum : ℚ) * 10) /
            ((d.attempts.filterMap (fun a => a.rating)).length : ℚ)) : ℚ) / 10)) ∧
    (getStats
      { enabled := true,
        attempts :=
          [{ id := "1", scenarioId := "a", timestamp := 0, mode := PracticeModeType.practice,
             focusComponent := none, difficulty := none, rating := none, completed := true },
           { id := "2", scenarioId := "b", timestamp := 1, mode := PracticeModeType.practice,
             focusComponent := none, difficulty := none, rating := none, completed := true },
           { id := "3", scenarioId := "c", timestamp := 2, mode := PracticeModeType.translate,
             focusComponent := none, difficulty := none, rating := none, completed := true },
           { id := "4", scenarioId := "d", timestamp := 3, mode := PracticeModeType.practice,
             focusComponent := none, difficulty := none, rating := none, completed := false }],
        completedScenarios := [], streakDays := 0, lastPracticeDate := none,
        totalPracticeTime := 0 }).completionRate = 75 ∧
    (getStats
      { enabled := true,
        attempts :=
          [{ id := "1", scenarioId := "a", timestamp := 0, mode := PracticeModeType.practice,
             focusComponent := none, difficulty := none, rating := some 4, completed := true },
           { id := "2", scenarioId := "b", timestamp := 1, mode := PracticeModeType.practice,
             focusComponent := none, difficulty := none, rating := some 5, completed := true },
           { id := "3", scenarioId := "c", timestamp := 2, mode := PracticeModeType.practice,
             focusComponent := none, difficulty := none, rating := some 3, completed := true }],
        completedScenarios := [], streakDays := 0, lastPracticeDate := none,
        totalPracticeTime := 0 }).averageRating = 4 := by
  refine ⟨fun d => ⟨?_, ?_⟩, ?_, ?_⟩
  · by_cases h : d.attempts.length = 0
    · simp [getStats, h]
    · have hpos : d.attempts.length > 0 := Nat.pos_of_ne_zero h
      simp only [getStats, hpos, if_pos, h, if_neg]
      rw [div_mul_eq_mul_div]
      simp
  · by_cases h : d.attempts.filterMap (fun a => a.rating) = []
    · have hlen : (d.attempts.filter (fun a => a.rating.isSome)).length = 0 := by
        rw [← length_filterMap_rating, h]; rfl
      simp [getStats, h, hlen]
    · have hlen : (d.attempts.filter (fun a => a.rating.isSome)).length > 0 := by
        rw [← length_filterMap_rating]
        exact List.length_pos.mpr h
      simp only [getStats, hlen, if_pos, h, if_neg]
      rw [foldl_rating_sum, zero_add, length_filterMap_rating, div_mul_eq_mul_div]
      simp
  · norm_num [getStats, jsRound, List.filter]
  · norm_num [getStats, jsRound, List.filter, List.foldl]

/-! ### Round trip of the JSON codec and of the Progress Record encoding -/

theorem digitChar_spec : ∀ d, d < 10 → (digitChar d).isDigit = true ∧ (digitChar d).toNat = 48 + d := by
  decide

theorem hexVal_hexDigit : ∀ d, d < 16 → hexVal (hexDigit d) = some d := by
  decide

theorem natToCharsCore_digits : ∀ n, ∀ c ∈ natToCharsCore n, c.isDigit = true := by
  intro n
  induction n using Nat.strong_induction_on with
  | _ n ih =>
    match n with
    | 0 => simp [natToCharsCore]
    | m + 1 =>
      intro c hc
      rw [natToCharsCore] at hc
      rcases List.mem_append.mp hc with h | h
      · exact ih ((m + 1) / 10) (Nat.div_lt_self (Nat.succ_pos m) (by omega)) c h
      · rcases List.mem_singleton.mp h with rfl
        exact (digitChar_spec _ (Nat.mod_lt _ (by omega))).1

theorem natToChars_digits : ∀ n, ∀ c ∈ natToChars n, c.isDigit = true := by
  intro n c hc
  rw [natToChars] at hc
  split at hc
  · rcases List.mem_singleton.mp hc with rfl; decide
  · exact natToCharsCore_digits n c hc

theorem natToChars_ne_nil (n : Nat) : natToChars n ≠ [] := by
  rw [natToChars]
  split
  · simp
  · match n, ‹¬n = 0› with
    | m + 1, _ =>
      rw [natToCharsCore]
      simp

theorem natToCharsCore_foldl : ∀ n, ∀ a : Nat,
    (natToCharsCore n).foldl (fun acc c => acc * 10 + (c.toNat - 48)) a =
      a * 10 ^ (natToCharsCore n).length + n := by
  intro n
  induction n using Nat.strong_induction_on with
  | _ n ih =>
    match n with
    | 0 => simp [natToCharsCore]
    | m + 1 =>
      intro a
      rw [natToCharsCore, List.foldl_append, List.length_append]
      rw [ih ((m + 1) / 10) (Nat.div_lt_self (Nat.succ_pos m) (by omega))]
      simp only [List.foldl_cons, List.foldl_nil, List.length_cons, List.length_nil]
      rw [(digitChar_spec _ (Nat.mod_lt _ (by omega))).2]
      have h10 : 10 ^ ((natToCharsCore ((m + 1) / 10)).length + (0 + 1)) =
          10 ^ (natToCharsCore ((m + 1) / 10)).length * 10 := by
        rw [pow_succ]
      rw [h10, ← mul_assoc]
      generalize a * 10 ^ (natToCharsCore ((m + 1) / 10)).length = y
      omega

theorem digitsVal_natToChars (n : Nat) : digitsVal (natToChars n) = n := by
  rw [natToChars]
  split
  · subst ‹n = 0›; decide
  · rw [digitsVal, natToCharsCore_foldl]
    simp

theorem takeDigits_append : ∀ ds rest, (∀ c ∈ ds, c.isDigit = true) →
    noDigitHead rest = true → takeDigits (ds ++ rest) = (ds, rest) := by
  intro ds
  induction ds with
  | nil =>
    intro rest _ hnd
    cases rest with
    | nil => rfl
    | cons c t =>
      simp only [noDigitHead, Bool.not_eq_true'] at hnd
      simp [takeDigits, hnd]
  | cons d ds ih =>
    intro rest hds hnd
    have hd : d.isDigit = true := hds d (List.mem_cons_self d ds)
    simp only [List.cons_append, takeDigits, hd, if_true]
    simp [ih rest (fun c hc => hds c (List.mem_cons_of_mem d hc)) hnd]

theorem parseStrBody_escChars : ∀ s rest, parseStrBody (escChars s ++ rest) = some (s, rest) := by
  have hbq : ¬bsChar = qChar := by decide
  intro s
  induction s with
  | nil =>
    intro rest
    rw [escChars, List.singleton_append, parseStrBody.eq_def]
    simp
  | cons c cs ih =>
    intro rest
    rw [escChars, List.append_assoc]
    by_cases hq : c = qChar
    · subst hq
      rw [show escChar qChar = [bsChar, qChar] from by decide]
      rw [List.cons_append, List.cons_append, List.nil_append, parseStrBody.eq_def]
      simp [hbq, ih]
    · by_cases hb : c = bsChar
      · subst hb
        rw [show escChar bsChar = [bsChar, bsChar] from by decide]
        rw [List.cons_append, List.cons_append, List.nil_append, parseStrBody.eq_def]
        simp [hbq, ih]
      · by_cases hc : c.toNat < 32
        · rw [escChar, if_neg hq, if_neg hb, if_pos hc]
          simp only [List.cons_append, List.nil_append]
          rw [parseStrBody.eq_def]
          have h0 : hexVal '0' = some 0 := by decide
          have h2 : hexVal (hexDigit (c.toNat / 16)) = some (c.toNat / 16) :=
            hexVal_hexDigit _ (by omega)
          have h3 : hexVal (hexDigit (c.toNat % 16)) = some (c.toNat % 16) :=
            hexVal_hexDigit _ (Nat.mod_lt _ (by omega))
          simp [hbq, h0, h2, h3, ih,
            show ¬('u' = qChar) from by decide, show ¬('u' = bsChar) from by decide]
          rw [show c.toNat / 16 * 16 + c.toNat % 16 = c.toNat from by omega]
          rw [Char.ofNat_toNat]
        · rw [escChar, if_neg hq, if_neg hb, if_neg hc]
          rw [List.singleton_append, parseStrBody.eq_def]
          simp [hq, hb, ih]

theorem needV_pos (j : Json) : 1 ≤ needV j := by
  cases j with
  | null => simp [needV]
  | bool b => simp [needV]
  | num n => simp [needV]
  | str s => simp [needV]
  | arr a => cases a <;> (simp only [needV]; omega)
  | obj o => cases o <;> (simp only [needV]; omega)

theorem needA_pos (a : JsonArr) : 1 ≤ needA a := by
  cases a <;> (simp only [needA]; omega)

theorem needO_pos (o : JsonObj) : 1 ≤ needO o := by
  cases o <;> (simp only [needO]; omega)

theorem noDigitHead_encArrRest (a : JsonArr) (r : List Char) :
    noDigitHead (encArrRest a ++ r) = true := by
  cases a <;> rw [encArrRest] <;> rfl

theorem noDigitHead_encObjRest (o : JsonObj) (r : List Char) :
    noDigitHead (encObjRest o ++ r) = true := by
  cases o <;> rw [encObjRest] <;> rfl

theorem digit_not_special (c : Char) (h : c.isDigit = true) :
    ¬c = 'n' ∧ ¬c = 't' ∧ ¬c = 'f' ∧ ¬c = qChar ∧ ¬c = '[' ∧ ¬c = obChar ∧ ¬c = ']' := by
  refine ⟨?_, ?_, ?_, ?_, ?_, ?_, ?_⟩ <;> (intro hc; subst hc; exact absurd h (by decide))

theorem encVal_cons (j : Json) : ∃ c t, encVal j = c :: t ∧ ¬c = ']' := by
  cases j with
  | null => exact ⟨'n', _, rfl, by decide⟩
  | bool b => cases b
              · exact ⟨'f', _, rfl, by decide⟩
              · exact ⟨'t', _, rfl, by decide⟩
  | num n =>
    cases hnc : natToChars n with
    | nil => exact absurd hnc (natToChars_ne_nil n)
    | cons c t =>
      refine ⟨c, t, ?_, ?_⟩
      · rw [encVal, hnc]
      · have hd := natToChars_digits n c (by rw [hnc]; exact List.mem_cons_self c t)
        exact (digit_not_special c hd).2.2.2.2.2.2
  | str s => exact ⟨qChar, escChars s, rfl, by decide⟩
  | arr a => exact ⟨'[', encArrFirst a, rfl, by decide⟩
  | obj o => exact ⟨obChar, encObjFirst o, rfl, by decide⟩

set_option maxHeartbeats 1600000 in
theorem parse_enc_all : ∀ fuel,
    (∀ j rest, needV j ≤ fuel → noDigitHead rest = true →
      parseVal fuel (encVal j ++ rest) = some (j, rest)) ∧
    (∀ a rest, needA a ≤ fuel → noDigitHead rest = true →
      parseArrRest fuel (encArrRest a ++ rest) = some (a, rest)) ∧
    (∀ k v rest, needV v + 1 ≤ fuel → noDigitHead rest = true →
      parseMember fuel ((qChar :: escChars k) ++ ':' :: (encVal v ++ rest)) =
        some (k, v, rest)) ∧
    (∀ o rest, needO o ≤ fuel → noDigitHead rest = true →
      parseObjRest fuel (encObjRest o ++ rest) = some (o, rest)) := by
  intro fuel
  induction fuel with
  | zero =>
    refine ⟨fun j rest hn _ => ?_, fun a rest hn _ => ?_,
            fun k v rest hn _ => ?_, fun o rest hn _ => ?_⟩
    · exact absurd hn (by have := needV_pos j; omega)
    · exact absurd hn (by have := needA_pos a; omega)
    · exact absurd hn (by have := needV_pos v; omega)
    · exact absurd hn (by have := needO_pos o; omega)
  | succ fuel ih =>
    obtain ⟨ihV, ihA, ihM, ihO⟩ := ih
    refine ⟨?_, ?_, ?_, ?_⟩
    · intro j rest hn hr
      cases j with
      | null => rfl
      | bool b => cases b <;> rfl
      | num n =>
        cases hnc : natToChars n with
        | nil => exact absurd hnc (natToChars_ne_nil n)
        | cons c t =>
          have hcd : c.isDigit = true :=
            natToChars_digits n c (by rw [hnc]; exact List.mem_cons_self c t)
          obtain ⟨h1, h2, h3, h4, h5, h6, _⟩ := digit_not_special c hcd
          have htk : takeDigits (c :: (t ++ rest)) = (natToChars n, rest) := by
            rw [show c :: (t ++ rest) = natToChars n ++ rest by rw [hnc]; rfl]
            exact takeDigits_append _ _ (natToChars_digits n) hr
          rw [show encVal (Json.num n) = natToChars n from rfl, hnc, List.cons_append,
            parseVal]
          unfold parseValStep
          simp only [h1, h2, h3, h4, h5, h6, hcd, if_false, if_true, ite_true, ite_false,
            htk, digitsVal_natToChars]
      | str s =>
        rw [show encVal (Json.str s) ++ rest = qChar :: (escChars s ++ rest) from rfl,
          parseVal]
        unfold parseValStep
        simp [parseStrBody_escChars,
          show ¬qChar = 'n' from by decide, show ¬qChar = 't' from by decide,
          show ¬qChar = 'f' from by decide]
      | arr a =>
        cases a with
        | nil => rfl
        | cons j a2 =>
          simp only [needV] at hn
          have hV := ihV j (encArrRest a2 ++ rest) (by omega)
            (noDigitHead_encArrRest a2 rest)
          have hA := ihA a2 rest (by omega) hr
          obtain ⟨c, t, hct, hne⟩ := encVal_cons j
          rw [show encVal (Json.arr (JsonArr.cons j a2)) ++ rest =
            '[' :: (encVal j ++ (encArrRest a2 ++ rest)) from by
              rw [show encVal (Json.arr (JsonArr.cons j a2)) =
                '[' :: (encVal j ++ encArrRest a2) from rfl]
              simp [List.append_assoc], parseVal]
          unfold parseValStep
          rw [hct, List.cons_append]
          simp only [show ¬('[' = 'n') from by decide, show ¬('[' = 't') from by decide,
            show ¬('[' = 'f') from by decide, show ¬('[' = qChar) from by decide,
            ite_false, ite_true, if_pos rfl, if_neg hne]
          rw [show c :: (t ++ (encArrRest a2 ++ rest)) =
            encVal j ++ (encArrRest a2 ++ rest) from by rw [hct, List.cons_append]]
          rw [hV]
          simp only [hA]
      | obj o =>
        cases o with
        | nil => rfl
        | cons k v o2 =>
          simp only [needV] at hn
          have hM := ihM k v (encObjRest o2 ++ rest) (by omega)
            (noDigitHead_encObjRest o2 rest)
          have hO := ihO o2 rest (by omega) hr
          rw [show encVal (Json.obj (JsonObj.cons k v o2)) ++ rest =
            obChar :: ((qChar :: escChars k) ++ ':' :: (encVal v ++ (encObjRest o2 ++ rest)))
            from by
              rw [show encVal (Json.obj (JsonObj.cons k v o2)) =
                obChar :: ((qChar :: escChars k) ++ ':' :: (encVal v ++ encObjRest o2))
                from rfl]
              simp [List.append_assoc], parseVal]
          unfold parseValStep
          simp only [show ¬obChar = 'n' from by decide, show ¬obChar = 't' from by decide,
            show ¬obChar = 'f' from by decide, show ¬obChar = qChar from by decide,
            show ¬obChar = '[' from by decide, ite_false, ite_true, if_pos rfl,
            List.cons_append, show ¬qChar = cbChar from by decide, if_neg]
          rw [show qChar :: (escChars k ++ ':' :: (encVal v ++ (encObjRest o2 ++ rest))) =
            (qChar :: escChars k) ++ ':' :: (encVal v ++ (encObjRest o2 ++ rest)) from rfl]
          rw [hM]
          simp only [hO]
    · intro a rest hn hr
      cases a with
      | nil => rfl
      | cons j a2 =>
        simp only [needA] at hn
        have hV := ihV j (encArrRest a2 ++ rest) (by omega)
          (noDigitHead_encArrRest a2 rest)
        have hA := ihA a2 rest (by omega) hr
        rw [show encArrRest (JsonArr.cons j a2) ++ rest =
          ',' :: (encVal j ++ (encArrRest a2 ++ rest)) from by
            rw [show encArrRest (JsonArr.cons j a2) =
              ',' :: (encVal j ++ encArrRest a2) from rfl]
            simp [List.append_assoc], parseArrRest]
        unfold parseArrRestStep
        simp only [show ¬(',' = ']') from by decide, ite_false, ite_true, if_pos rfl]
        rw [hV]
        simp only [hA]
    · intro k v rest hn hr
      have hV := ihV v rest (by omega) hr
      rw [show (qChar :: escChars k) ++ ':' :: (encVal v ++ rest) =
        qChar :: (escChars k ++ ':' :: (encVal v ++ rest)) from rfl, parseMember]
      unfold parseMemberStep
      simp only [if_pos rfl, parseStrBody_escChars, ite_true,
        show ¬(':' = qChar) from by decide]
      rw [hV]
    · intro o rest hn hr
      cases o with
      | nil => rfl
      | cons k v o2 =>
        simp only [needO] at hn
        have hM := ihM k v (encObjRest o2 ++ rest) (by omega)
          (noDigitHead_encObjRest o2 rest)
        have hO := ihO o2 rest (by omega) hr
        rw [show encObjRest (JsonObj.cons k v o2) ++ rest =
          ',' :: ((qChar :: escChars k) ++ ':' :: (encVal v ++ (encObjRest o2 ++ rest)))
          from by
            rw [show encObjRest (JsonObj.cons k v o2) =
              ',' :: ((qChar :: escChars k) ++ ':' :: (encVal v ++ encObjRest o2)) from rfl]
            simp [List.append_assoc], parseObjRest]
        unfold parseObjRestStep
        simp only [show ¬(',' = cbChar) from by decide, ite_false, ite_true, if_pos rfl]
        rw [hM]
        simp only [hO]

mutual

theorem needV_le_length : ∀ j : Json, needV j ≤ (encVal j).length
  | Json.null => by simp [needV, encVal]
  | Json.bool b => by cases b <;> simp [needV, encVal]
  | Json.num n => by
      have h := natToChars_ne_nil n
      have : 0 < (natToChars n).length := List.length_pos.mpr h
      simp only [needV, encVal]
      omega
  | Json.str s => by
      simp [needV, encVal, escChars]
  | Json.arr JsonArr.nil => by simp [needV, encVal, encArrFirst]
  | Json.arr (JsonArr.cons j a) => by
      have h1 := needV_le_length j
      have h2 := needA_le_length a
      simp only [needV, encVal, encArrFirst, List.length_cons, List.length_append]
      omega
  | Json.obj JsonObj.nil => by simp [needV, encVal, encObjFirst]
  | Json.obj (JsonObj.cons k v o) => by
      have h1 := needV_le_length v
      have h2 := needO_le_length o
      simp only [needV, encVal, encObjFirst, List.length_cons, List.length_append]
      omega

theorem needA_le_length : ∀ a : JsonArr, needA a ≤ (encArrRest a).length
  | JsonArr.nil => by simp [needA, encArrRest]
  | JsonArr.cons j a => by
      have h1 := needV_le_length j
      have h2 := needA_le_length a
      simp only [needA, encArrRest, List.length_cons, List.length_append]
      omega

theorem needO_le_length : ∀ o : JsonObj, needO o ≤ (encObjRest o).length
  | JsonObj.nil => by simp [needO, encObjRest]
  | JsonObj.cons k v o => by
      have h1 := needV_le_length v
      have h2 := needO_le_length o
      simp only [needO, encObjRest, List.length_cons, List.length_append]
      omega

end

theorem jparse_jstringify (j : Json) : jparse (jstringify j) = some j := by
  rw [jparse, jstringify]
  have hfuel : needV j ≤ (encVal j).length + 1 := by
    have := needV_le_length j
    omega
  have h := ((parse_enc_all ((encVal j).length + 1)).1 j [] hfuel rfl)
  rw [List.append_nil] at h
  simp only [String.length]
  simp only [h]

theorem decodeAttempt_attemptToJson (a : PracticeAttempt) :
    decodeAttempt (attemptToJson a) = some a := by
  rcases a with ⟨id, sid, ts, mode, fc, diff, rat, comp⟩
  cases mode <;> rcases fc with _ | f <;> (try cases f) <;> rcases diff with _ | d <;>
    (try cases d) <;> rcases rat with _ | r <;> rfl

theorem decodeList_arrOfList_map {α : Type} (f : Json → Option α) (g : α → Json)
    (l : List α) (h : ∀ x ∈ l, f (g x) = some x) :
    decodeList f (arrOfList (l.map g)) = some l := by
  induction l with
  | nil => rfl
  | cons x xs ih =>
    simp only [List.map_cons, arrOfList, decodeList]
    rw [h x (List.mem_cons_self x xs), ih (fun y hy => h y (List.mem_cons_of_mem x hy))]
    rfl

theorem fromJson_toJson (p : ProgressData) : fromJson (toJson p) = some p := by
  rcases p with ⟨en, att, cs, sd, lpd, tpt⟩
  have hatt : decodeList decodeAttempt (arrOfList (att.map attemptToJson)) = some att :=
    decodeList_arrOfList_map _ _ _ (fun x _ => decodeAttempt_attemptToJson x)
  have hcs : decodeList decodeString (arrOfList (cs.map (fun s => Json.str s.data))) =
      some cs :=
    decodeList_arrOfList_map _ _ _ (fun x _ => rfl)
  cases lpd <;>
    simp [toJson, fromJson, objOfList, jLookup, decodeArr, decodeBool, decodeNat,
      decodeDate, dateToJson, hatt, hcs, Option.bind]

/-- C3: for every valid Progress Record `R` and any current state,
`importData(serialize(R))` wholesale-installs exactly the JSON encoding of
`R`, a subsequent `exportData()` produces a string that parses back to that
same JSON value, and that value decodes to a record semantically equal to
`R` (same enabled flag, same attempts in order, same completedScenarios,
streakDays, lastPracticeDate). -/
theorem import_export_round_trip (R : ProgressData) (cur : JsonTrackerState) :
    (importData cur (jstringify (toJson R))).data = toJson R ∧
    jparse (exportData (importData cur (jstringify (toJson R)))) = some (toJson R) ∧
    fromJson (toJson R) = some R ∧
    (jparse (exportData (importData cur (jstringify (toJson R))))).bind fromJson =
      some R := by
  refine ⟨?_, ?_, fromJson_toJson R, ?_⟩ <;>
    simp [importData, exportData, jparse_jstringify, fromJson_toJson]

/-- C10: `importData` treats any string that parses as JSON as a successful
import.  `"null"` and `"42"` are valid JSON but do not encode a Progress
Record (`fromJson` rejects them), yet `importData` wholesale-replaces the
in-memory record with the parsed value and persists it; only strings that
fail JSON parsing take the silent-ignore path. -/
theorem importData_no_validation :
    jparse "null" = some Json.null ∧
    importData { data := toJson DEFAULT_PROGRESS_DATA,
                 store := some (serializeData DEFAULT_PROGRESS_DATA) } "null" =
      { data := Json.null, store := some "null" } ∧
    fromJson Json.null = none ∧
    jparse "42" = some (Json.num 42) ∧
    (importData { data := toJson DEFAULT_PROGRESS_DATA,
                  store := some (serializeData DEFAULT_PROGRESS_DATA) } "42").data =
      Json.num 42 :=
  ⟨rfl, rfl, rfl, rfl, rfl⟩

/-- C9 counterexample: `importData` is a Ledger operation, performs no
validation, and is refuted as an invariant preserver: starting from the
default state (which satisfies the invariant), importing the serialization
of a record whose `completedScenarios` contains "s1" with no attempts at
all yields a reachable state whose decoded record violates the invariant. -/
theorem ledger_invariant_counterexample :
    ledgerInvariant DEFAULT_PROGRESS_DATA ∧
    (importData { data := toJson DEFAULT_PROGRESS_DATA,
                  store := some (serializeData DEFAULT_PROGRESS_DATA) }
       (jstringify (toJson { DEFAULT_PROGRESS_DATA with completedScenarios := ["s1"] }))).data
      = toJson { DEFAULT_PROGRESS_DATA with completedScenarios := ["s1"] } ∧
    fromJson (toJson { DEFAULT_PROGRESS_DATA with completedScenarios := ["s1"] }) =
      some { DEFAULT_PROGRESS_DATA with completedScenarios := ["s1"] } ∧
    ¬ledgerInvariant { DEFAULT_PROGRESS_DATA with completedScenarios := ["s1"] } := by
  refine ⟨by decide, ?_, fromJson_toJson _, by decide⟩
  simp [importData, jparse_jstringify]

/-- C9 amended: the invariant (every scenarioId in completedScenarios is
witnessed by a completed attempt with that id, and completedScenarios has
no duplicates) is preserved by `recordAttempt`, `enable` and `disable` —
`recordAttempt` adds a scenarioId only when the recorded attempt has
`completed = true` and the id is not already a member — but not by
`importData`, which performs no validation (see the counterexample). -/
theorem ledger_invariant_amended (s : TrackerState) (input : RecordAttemptInput)
    (newId : String) (now today : Nat) (clearData : Bool)
    (h : ledgerInvariant s.data) :
    ledgerInvariant (recordAttempt s input newId now today).data ∧
    ledgerInvariant (enable s).data ∧
    ledgerInvariant (disable s clearData).data := by
  obtain ⟨h1, h2⟩ := h
  refine ⟨?_, ?_, ?_⟩
  · by_cases he : s.data.enabled = true
    · simp only [recordAttempt, he, Bool.not_true, Bool.false_eq_true, if_false, saveData]
      split
      next hguard =>
        simp only [Bool.and_eq_true, Bool.not_eq_true'] at hguard
        constructor
        · intro sid hsid
          rcases List.mem_append.mp hsid with hold | hnew
          · obtain ⟨a, ha, hac, hai⟩ := h1 sid hold
            exact ⟨a, List.mem_append_left _ ha, hac, hai⟩
          · rcases List.mem_singleton.mp hnew with rfl
            refine ⟨_, List.mem_append_right _ (List.mem_singleton.mpr rfl), ?_, rfl⟩
            exact hguard.1
        · rw [List.nodup_append]
          refine ⟨h2, List.nodup_singleton _, ?_⟩
          intro x hx hmem
          rcases List.mem_singleton.mp hmem with rfl
          have hc2 := hguard.2
          simp at hc2
          exact hc2 hx
      next hguard =>
        exact ⟨fun sid hsid => by
          obtain ⟨a, ha, hac, hai⟩ := h1 sid hsid
          exact ⟨a, List.mem_append_left _ ha, hac, hai⟩, h2⟩
    · simp only [recordAttempt, Bool.not_eq_true] at he ⊢
      rw [he]
      exact ⟨h1, h2⟩
  · exact ⟨h1, h2⟩
  · by_cases hc : clearData = true
    · simp only [disable, hc, if_true, saveData]
      decide
    · simp only [Bool.not_eq_true] at hc
      simp only [disable, hc, Bool.false_eq_true, if_false, saveData]
      exact ⟨h1, h2⟩

theorem ledger_invariant_amended_witness :
    ledgerInvariant
      { enabled := true, attempts := [], completedScenarios := [], streakDays := 0,
        lastPracticeDate := none, totalPracticeTime := 0 } ∧
    ledgerInvariant
      (recordAttempt
        { data := { enabled := true, attempts := [], completedScenarios := [],
                    streakDays := 0, lastPracticeDate := none, totalPracticeTime := 0 },
          store := none }
        { scenarioId := "s1", mode := PracticeModeType.practice, completed := true,
          focusComponent := none, difficulty := none, rating := none }
        "a1" 5 3).data :=
  ⟨by decide,
   (ledger_invariant_amended
      { data := { enabled := true, attempts := [], completedScenarios := [],
                  streakDays := 0, lastPracticeDate := none, totalPracticeTime := 0 },
        store := none }
      { scenarioId := "s1", mode := PracticeModeType.practice, completed := true,
        focusComponent := none, difficulty := none, rating := none }
      "a1" 5 3 false (by decide)).1⟩
